import Mathlib

/-!
Verification development for the OSM Med Spa Seeder actor (`main.js`,
resilient variant).  The JavaScript pipeline — input normalization, regex
building, multi-endpoint fetch with retry, record extraction, deduplication
and the run driver — is shallowly embedded below; machine floats only occur
as exact decimal literals here, so coordinates and scores are modelled as
rationals, and JS strings as Lean `String`.
-/

namespace Seeder

/-- JS `a || b` on strings: the empty string is falsy. -/
def jsOr (a b : String) : String :=
  if a = "" then b else a

/-- ASCII lowercasing of one character (models `toLowerCase` on the ASCII
range, the only range this program's data exercises). -/
def charLower (c : Char) : Char :=
  if c.toNat ≥ 65 && c.toNat ≤ 90 then Char.ofNat (c.toNat + 32) else c

/-- Models JS `s.toLowerCase()`. -/
def sLower (s : String) : String :=
  String.mk (s.data.map charLower)

/-- Whitespace characters recognised by `trim`. -/
def isWsp (c : Char) : Bool :=
  c = ' ' || c = '\t' || c = '\n' || c = '\r' || c = '\x0b' || c = '\x0c'

/-- Models JS `s.trim()`. -/
def sTrim (s : String) : String :=
  String.mk (((s.data.dropWhile isWsp).reverse.dropWhile isWsp).reverse)

/-- Does the second list begin with the first? -/
def leadsWith : List Char → List Char → Bool
  | [], _ => true
  | _ :: _, [] => false
  | p :: ps, c :: cs => p = c && leadsWith ps cs

/-- Models JS `s.startsWith(pat)`. -/
def sStartsWith (s pat : String) : Bool :=
  leadsWith pat.data s.data

/-- Models JS `s.slice(n)` for the one use `h.slice(4)` (drop `n` chars). -/
def sDrop (s : String) (n : Nat) : String :=
  String.mk (s.data.drop n)

/-- Models JS `list.join(sep)`. -/
def sIntercalate (sep : String) : List String → String
  | [] => ""
  | [x] => x
  | x :: xs => x ++ sep ++ sIntercalate sep xs

/-- Models JS `s.split(sep)` for a one-character separator. -/
def splitCh (sep : Char) : List Char → List String
  | [] => [""]
  | c :: cs =>
    let rest := splitCh sep cs
    if c = sep then "" :: rest
    else
      match rest with
      | [] => [String.mk [c]]
      | r :: rs => String.mk (c :: r.data) :: rs

/-- Does `needle` occur contiguously somewhere in `hay`? -/
def listIncl (hay needle : List Char) : Bool :=
  match hay with
  | [] => needle = []
  | _ :: t => leadsWith needle hay || listIncl t needle

/-- Models JS `hay.includes(needle)`: `needle` occurs contiguously in `hay`. -/
def strIncludes (hay needle : String) : Bool :=
  listIncl hay.data needle.data

/-! ### Query Builder (`buildRegex`, main.js lines 221–226) -/

/-- The character class of `/[.*+?^${}()|[\]\\]/` in `buildRegex`. -/
def isReMeta (c : Char) : Bool :=
  c = '.' || c = '*' || c = '+' || c = '?' || c = '^' || c = '$' ||
  c = '\x7b' || c = '\x7d' || c = '(' || c = ')' || c = '|' ||
  c = '[' || c = ']' || c = '\\'

/-- Character-level transcription of `k.replace(/[.*+?^${}()|[\]\\]/g, "\\$&")`. -/
def escChars : List Char → List Char
  | [] => []
  | c :: cs => if isReMeta c then '\\' :: c :: escChars cs else c :: escChars cs

/-- String wrapper for `escChars`. -/
def escapeRe (s : String) : String :=
  String.mk (escChars s.data)

/-- The built-in default alternation used when no keyword survives filtering. -/
def defaultPattern : String :=
  "med\\s*spa|medspa|aesthetic|inject|botox|laser|hydrafacial"

/-- `buildRegex(keywords)` from main.js: trim, drop empties, escape, join
with a bar, fall back to `defaultPattern`, wrap in a case-insensitive group. -/
def buildRegex (keywords : List String) : String :=
  let safe := ((keywords.map sTrim).filter (fun k => k ≠ "")).map escapeRe
  let joined := if safe = [] then defaultPattern else sIntercalate "|" safe
  "(?i)(" ++ joined ++ ")"

/-- Interpreter of a regex pattern that is a sequence of literals: a plain
non-metacharacter denotes itself and a backslash-escaped metacharacter
denotes that character; anything else is not a pure literal pattern.  Used to
state that escaping round-trips (the escaped pattern matches exactly the
original keyword text). -/
def parseLitF : Bool → List Char → Option (List Char)
  | false, [] => some []
  | true, [] => none
  | false, c :: rest =>
    if c = '\\' then parseLitF true rest
    else if isReMeta c then none
    else (parseLitF false rest).map (fun l => c :: l)
  | true, c :: rest =>
    if isReMeta c then (parseLitF false rest).map (fun l => c :: l) else none

/-- Entry point of the literal-pattern interpreter. -/
def parseLit (l : List Char) : Option (List Char) :=
  parseLitF false l

/-! ### Host-environment URL parsing

`rootDomain` calls the platform's WHATWG `URL` constructor, which is not
repository code; `urlHostname` below models the constructor's
hostname extraction for absolute URLs (scheme detection, authority
parsing with userinfo/port, forbidden host code points, special-scheme
slash tolerance).  Parse failure (the constructor throwing) is `none`. -/

/-- Split a character list at the first occurrence of `c` (dropped). -/
def splitOnFirst (c : Char) : List Char → Option (List Char × List Char)
  | [] => none
  | x :: xs =>
    if x = c then some ([], xs)
    else (splitOnFirst c xs).map (fun p => (x :: p.1, p.2))

/-- Valid non-initial scheme characters. -/
def isSchemeChar (c : Char) : Bool :=
  c.isAlphanum || c = '+' || c = '-' || c = '.'

/-- Split an absolute URL into (lowercased scheme, remainder after the colon);
`none` when the input has no valid scheme, in which case the URL
constructor throws (no base URL is ever supplied in this program). -/
def splitScheme (s : String) : Option (String × String) :=
  match splitOnFirst ':' s.data with
  | none => none
  | some (sch, rest) =>
    match sch with
    | [] => none
    | c :: cs =>
      if c.isAlpha && cs.all isSchemeChar
      then some (sLower (String.mk sch), String.mk rest)
      else none

/-- Schemes the WHATWG parser treats as special (authority always parsed). -/
def specialSchemes : List String :=
  ["http", "https", "ws", "wss", "ftp", "file"]

/-- Forbidden host code points (WHATWG); a host containing one throws. -/
def forbiddenHostChar (c : Char) : Bool :=
  c = '\x00' || c = '\t' || c = '\n' || c = '\r' || c = ' ' || c = '#' ||
  c = '/' || c = ':' || c = '<' || c = '>' || c = '?' || c = '@' ||
  c = '[' || c = '\\' || c = ']' || c = '^' || c = '|'

/-- The part of an authority after its last `@` (userinfo stripped). -/
def afterLastAt (l : List Char) : List Char :=
  (l.reverse.takeWhile (fun c => c ≠ '@')).reverse

/-- Extract the hostname from an authority component: strip userinfo, split
off a (digits-only) port, reject empty hosts and forbidden characters,
lowercase the result. -/
def hostFromAuthority (auth : List Char) : Option String :=
  let hostport := afterLastAt auth
  let host := hostport.takeWhile (fun c => c ≠ ':')
  let port := hostport.dropWhile (fun c => c ≠ ':')
  if host = [] then none
  else if host.any forbiddenHostChar then none
  else match port with
    | [] => some (sLower (String.mk host))
    | _ :: ds => if ds.all Char.isDigit then some (sLower (String.mk host)) else none

/-- Model of `new URL(s).hostname` for absolute URLs (no base URL). -/
def urlHostname (s : String) : Option String :=
  match splitScheme s with
  | none => none
  | some (scheme, rest) =>
    if specialSchemes.any (fun x => x = scheme) then
      let r := rest.data.dropWhile (fun c => c = '/' || c = '\\')
      let auth := r.takeWhile (fun c => c ≠ '/' && c ≠ '\\' && c ≠ '?' && c ≠ '#')
      hostFromAuthority auth
    else
      match rest.data with
      | '/' :: '/' :: r =>
        let auth := r.takeWhile (fun c => c ≠ '/' && c ≠ '?' && c ≠ '#')
        hostFromAuthority auth
      | _ => some ""

/-- `rootDomain(url)` from main.js (lines 228–235): empty input gives `""`;
otherwise the string is prefixed with `http://` unless it starts with the
literal `http`, parsed as a URL, and on success the lowercased hostname with
one leading `www.` stripped is returned, else `""`. -/
def rootDomain (url : String) : String :=
  if url = "" then ""
  else
    match urlHostname (if sStartsWith url "http" then url else "http://" ++ url) with
    | none => ""
    | some h =>
      let hl := sLower h
      if sStartsWith hl "www." then sDrop hl 4 else hl

/-- Modelled from the spec: `rootDomain` as the spec describes it, prefixing
`http://` exactly when *no scheme is given* (rather than when the string does
not start with `http`).  Kept only to compare against the source translation. -/
def rootDomainSpecModel (url : String) : String :=
  if url = "" then ""
  else
    let u := if (splitScheme url).isSome then url else "http://" ++ url
    match urlHostname u with
    | none => ""
    | some h =>
      let hl := sLower h
      if sStartsWith hl "www." then sDrop hl 4 else hl

/-! ### Raw elements, tags and output records -/

/-- The tag keys the extractor reads from an element's tag object; an absent
key is `none` (JS `undefined`). -/
structure Tags where
  name : Option String := none
  website : Option String := none
  contactWebsite : Option String := none
  leisure : Option String := none
  amenity : Option String := none
  shop : Option String := none
  addrCity : Option String := none
  isInCity : Option String := none
  addrTown : Option String := none
  addrVillage : Option String := none
deriving DecidableEq, Repr

/-- An element's `center` object, when present. -/
structure Center where
  lat : Option Rat := none
  lon : Option Rat := none
deriving DecidableEq, Repr

/-- A raw Overpass element; JSON numbers are modelled as rationals. -/
structure Element where
  type : Option String := none
  id : Int := 0
  lat : Option Rat := none
  lon : Option Rat := none
  center : Option Center := none
  tags : Option Tags := none
deriving DecidableEq, Repr

/-- An Output Record, the shape pushed to the dataset. -/
structure Row where
  name : String
  domain : String
  city : String
  category : String
  source_url : String
  lat : String
  lon : String
  confidence : String
  notes : String
deriving DecidableEq, Repr

/-- `categoryFromTags(tags)` from main.js: `===` comparisons first, then a
falsy-chained fallback over amenity, leisure, shop. -/
def categoryFromTags (tags : Tags) : String :=
  if tags.leisure = some "spa" then "spa"
  else if tags.amenity = some "clinic" then "clinic"
  else if tags.shop = some "beauty" then "beauty"
  else jsOr (tags.amenity.getD "") (jsOr (tags.leisure.getD "") (tags.shop.getD ""))

/-- `cityFromTags(tags, fallbackCity)` from main.js: first truthy of the four
address tags, else the fallback city. -/
def cityFromTags (tags : Tags) (fallbackCity : String) : String :=
  jsOr (tags.addrCity.getD "")
    (jsOr (tags.isInCity.getD "")
      (jsOr (tags.addrTown.getD "")
        (jsOr (tags.addrVillage.getD "") fallbackCity)))

/-- `evidenceNote(tags, keywords)` from main.js: lowercase the name, keep the
non-empty keywords whose lowercase form occurs in it, and join the hits. -/
def evidenceNote (tags : Tags) (keywords : List String) : String :=
  let n := sLower (tags.name.getD "")
  let hits := ((keywords.filter (fun k => k ≠ "")).map sLower).filter
    (fun k => strIncludes n k)
  if hits = [] then "" else "name_keywords=" ++ sIntercalate "," hits

/-- Models JS `Number.prototype.toFixed(d)` on an exact rational value:
round half-up to `d` decimal places and render with exactly `d` fraction
digits (the program only ever formats 1.0, 0.7, 0.5 and coordinates). -/
def ratFixed (d : Nat) (q : Rat) : String :=
  let m : Nat := (2 * q.num.natAbs * 10 ^ d + q.den) / (2 * q.den)
  let whole := m / 10 ^ d
  let frac := m % 10 ^ d
  let fs := toString frac
  let pad := String.mk (List.replicate (d - fs.data.length) '0')
  (if q.num < 0 then "-" else "") ++ toString whole ++ "." ++ pad ++ fs

/-- One step of the `elements.map(el => ...)` body in the resilient
`Actor.main` (main.js lines 313–339): `none` models the `return null` for
elements without a usable name; the `.filter(Boolean)` afterwards drops it. -/
def extractRow (keywords : List String) (fallbackCity : String) (el : Element) :
    Option Row :=
  let tags := el.tags.getD {}
  let name := sTrim (tags.name.getD "")
  if name = "" then none
  else
    let website := jsOr (tags.website.getD "") (tags.contactWebsite.getD "")
    let domain := rootDomain website
    let lat := el.lat <|> (el.center.bind Center.lat)
    let lon := el.lon <|> (el.center.bind Center.lon)
    let note := evidenceNote tags keywords
    let confidence : Rat := if domain ≠ "" then 1 else if note ≠ "" then mkRat 7 10 else mkRat 1 2
    let osmType := if el.type = some "node" then "node" else "way"
    some
      { name := name
        domain := domain
        city := cityFromTags tags fallbackCity
        category := categoryFromTags tags
        source_url := "https://www.openstreetmap.org/" ++ osmType ++ "/" ++ toString el.id
        lat := match lat with | some q => ratFixed 6 q | none => ""
        lon := match lon with | some q => ratFixed 6 q | none => ""
        confidence := ratFixed 2 confidence
        notes := note }

/-- `elements.map(...).filter(Boolean)`: extraction over a whole element list. -/
def extractRows (keywords : List String) (fallbackCity : String)
    (els : List Element) : List Row :=
  els.filterMap (extractRow keywords fallbackCity)

/-! ### Deduplicator (`dedupeRows`, main.js lines 254–261) -/

/-- The Dedup Key: `r.domain || (name.toLowerCase() + "|" + city.toLowerCase())`. -/
def dedupKey (r : Row) : String :=
  jsOr r.domain (sLower r.name ++ "|" ++ sLower r.city)

/-- The loop of `dedupeRows` with the `seen` set made explicit (a list of
already-seen keys). -/
def dedupeRowsAux (seen : List String) : List Row → List Row
  | [] => []
  | r :: rs =>
    if dedupKey r ∈ seen then dedupeRowsAux seen rs
    else r :: dedupeRowsAux (dedupKey r :: seen) rs

/-- `dedupeRows(rows)` from main.js. -/
def dedupeRows (rows : List Row) : List Row :=
  dedupeRowsAux [] rows

/-! ### Input Normalizer (`normalizeInput`, main.js lines 193–219) -/

/-- A loosely-typed JS value classified by its `Number(·)` coercion: a finite
number (possibly obtained from a numeric string), a value coercing to
`NaN`/`±Infinity` (non-numeric string, object, …), or an absent field. -/
inductive JNum
  | absent
  | nonFinite
  | fin (q : Rat)
deriving DecidableEq, Repr

/-- `toNum(v, def)` from main.js: `Number.isFinite(Number(v)) ? Number(v) : def`. -/
def toNum (v : JNum) (d : Rat) : Rat :=
  match v with
  | .fin q => q
  | _ => d

/-- A bbox object; nested input may carry arbitrary (even absent) fields. -/
structure JBBox where
  south : JNum := .absent
  west : JNum := .absent
  north : JNum := .absent
  east : JNum := .absent
deriving DecidableEq, Repr

/-- The actor input blob: both accepted shapes. -/
structure ActorInput where
  bbox : Option JBBox := none
  bbox_south : JNum := .absent
  bbox_west : JNum := .absent
  bbox_north : JNum := .absent
  bbox_east : JNum := .absent
  keywords : Option (List String) := none
  keyword_list : Option String := none
  city : Option String := none
deriving DecidableEq, Repr

/-- The canonical configuration produced by `normalizeInput`. -/
structure Config where
  bbox : JBBox
  keywords : List String
  city : String
deriving DecidableEq, Repr

/-- `input.bbox || { south: toNum(...), ... }` from `normalizeInput`. -/
def resolvedBBox (input : ActorInput) : JBBox :=
  match input.bbox with
  | some b => b
  | none =>
    { south := .fin (toNum input.bbox_south (mkRat 2910 100))
      west := .fin (toNum input.bbox_west (mkRat (-9885) 100))
      north := .fin (toNum input.bbox_north (mkRat 2975 100))
      east := .fin (toNum input.bbox_east (mkRat (-9810) 100)) }

/-- The built-in default keyword list. -/
def defaultKws : List String :=
  ["med spa", "medspa", "aesthetic", "inject", "botox", "laser", "hydrafacial"]

/-- The `keyword_list` fallback: split on commas, trim, drop empties; absent
(or non-string) gives the default list. -/
def keywordsFromList (input : ActorInput) : List String :=
  match input.keyword_list with
  | some s => ((splitCh ',' s.data).map sTrim).filter (fun x => x ≠ "")
  | none => defaultKws

/-- `Array.isArray(input.keywords) && input.keywords.length ? input.keywords : ...`. -/
def resolveKeywords (input : ActorInput) : List String :=
  match input.keywords with
  | some ks => if ks = [] then keywordsFromList input else ks
  | none => keywordsFromList input

/-- `input.city || "San Antonio"`. -/
def resolveCity (input : ActorInput) : String :=
  jsOr (input.city.getD "") "San Antonio"

/-- A JS `lo <= v && v <= hi` check on a loosely-typed coordinate: `NaN`
(and absent, which coerces to `NaN`) compares false. -/
def inRangeJ (lo hi : Rat) (v : JNum) : Bool :=
  match v with
  | .fin q => decide (lo ≤ q) && decide (q ≤ hi)
  | _ => false

/-- The sanity clamp of `normalizeInput`: south/north in latitude range,
west/east in longitude range. -/
def bboxOk (b : JBBox) : Bool :=
  inRangeJ (-90) 90 b.south && inRangeJ (-90) 90 b.north &&
  inRangeJ (-180) 180 b.west && inRangeJ (-180) 180 b.east

/-- `normalizeInput(input)` from main.js; the thrown `Error` is the
`Except.error` carrying its message. -/
def normalizeInput (input : ActorInput) : Except String Config :=
  let bbox := resolvedBBox input
  let keywords := resolveKeywords input
  let city := resolveCity input
  if bboxOk bbox then .ok ⟨bbox, keywords, city⟩
  else .error "Invalid bbox coordinates"

/-! ### Endpoint Client (`queryOverpass`, resilient variant, main.js 263–289)

The network is modelled by an oracle giving, per endpoint and attempt
number, the outcome `fetch` would produce.  The suspensions (`await sleep`)
and the attempts themselves are recorded in an event trace. -/

/-- The parsed Overpass response: `elements` is `some` exactly when the JSON
carries an array there (`Array.isArray(json?.elements)`). -/
structure OverpassResp where
  elements : Option (List Element) := none
deriving DecidableEq, Repr

/-- The pieces of a `fetch` response the client reads; `body` models
`res.json()` (its rejection is the `Except.error` message). -/
structure HttpResponse where
  ok : Bool
  status : Nat
  contentType : Option String := none
  body : Except String OverpassResp
deriving Repr

/-- One transport attempt: either `fetch` rejects or a response arrives. -/
inductive FetchResult
  | fail (msg : String)
  | resp (r : HttpResponse)
deriving Repr

/-- The environment: the outcome of posting the query to endpoint `ep` on
the `n`-th attempt at that endpoint. -/
def Oracle : Type :=
  String → Nat → FetchResult

/-- The fixed endpoint list. -/
def OVERPASS_ENDPOINTS : List String :=
  ["https://overpass-api.de/api/interpreter",
   "https://overpass.kumi.systems/api/interpreter",
   "https://overpass.openstreetmap.ru/api/interpreter"]

/-- The try-block of one delivery attempt: the fetch must complete, then
`res.ok` must hold, then the content type must include `application/json`,
then the body must parse; the first violation is the attempt's error. -/
def attemptOk (f : FetchResult) : Except String OverpassResp :=
  match f with
  | .fail m => .error m
  | .resp r =>
    if r.ok = false then .error ("HTTP " ++ toString r.status)
    else if strIncludes (r.contentType.getD "") "application/json" = false then
      .error ("Unexpected content-type: " ++ r.contentType.getD "")
    else r.body

/-- Observable events of the client: a delivery attempt at an endpoint with
its attempt number, and a sleep of a given number of milliseconds. -/
inductive Ev
  | att (ep : String) (n : Nat)
  | slp (ms : Nat)
deriving DecidableEq, Repr

/-- The inner `for (attempt = 1; attempt <= 3; attempt++)` loop at one
endpoint: `fuel` counts remaining attempts, `attempt` is the loop variable,
`last` the `lastErr` accumulator.  Returns the successful response if any,
the updated `lastErr`, and the event trace (a sleep of `700 * attempt`
follows every failed attempt, as in the source's catch block). -/
def tryEp (oracle : Oracle) (ep : String) :
    Nat → Nat → Option String → Option OverpassResp × Option String × List Ev
  | 0, _, last => (none, last, [])
  | fuel + 1, attempt, last =>
    match attemptOk (oracle ep attempt) with
    | .ok v => (some v, last, [Ev.att ep attempt])
    | .error e =>
      let (r, l, tr) := tryEp oracle ep fuel (attempt + 1) (some e)
      (r, l, Ev.att ep attempt :: Ev.slp (700 * attempt) :: tr)

/-- The outer loop of `queryOverpass` over the endpoint list, threading
`lastErr`; when every endpoint is exhausted the function throws
`lastErr || new Error("All Overpass endpoints failed")`. -/
def queryGo (oracle : Oracle) :
    List String → Option String → Except String OverpassResp × List Ev
  | [], last => (.error (last.getD "All Overpass endpoints failed"), [])
  | ep :: rest, last =>
    match tryEp oracle ep 3 1 last with
    | (some v, _, tr) => (.ok v, tr)
    | (none, last1, tr) =>
      let (r, tr1) := queryGo oracle rest last1
      (r, tr ++ tr1)

/-- `queryOverpass(ql)` with the transport abstracted by `oracle`. -/
def queryOverpass (oracle : Oracle) : Except String OverpassResp × List Ev :=
  queryGo oracle OVERPASS_ENDPOINTS none

/-- All delivery attempts an endpoint list can make, in program order. -/
def flatAttempts (eps : List String) : List (String × Nat) :=
  eps.flatMap (fun ep => [(ep, 1), (ep, 2), (ep, 3)])

/-- The attempt schedule of the fixed endpoint list. -/
def canonicalAttempts : List (String × Nat) :=
  flatAttempts OVERPASS_ENDPOINTS

/-- The response of the first attempt (in schedule order) that succeeds. -/
def firstSuccess (oracle : Oracle) (l : List (String × Nat)) :
    Option OverpassResp :=
  l.findSome? (fun p => (attemptOk (oracle p.1 p.2)).toOption)

/-- The delivery attempts recorded in a trace. -/
def attsOf (tr : List Ev) : List (String × Nat) :=
  tr.filterMap (fun e => match e with | .att ep n => some (ep, n) | .slp _ => none)

/-- Well-formed sleeping: every sleep immediately follows an attempt and
lasts `700 * attemptNumber` milliseconds. -/
def slpOk : List Ev → Bool
  | [] => true
  | Ev.att _ n :: Ev.slp d :: rest => decide (d = 700 * n) && slpOk rest
  | Ev.att _ _ :: rest => slpOk rest
  | Ev.slp _ :: _ => false

/-- The message carried by a failed attempt (junk on success; only used
under the assumption that the attempt failed). -/
def errMsg (r : Except String OverpassResp) : String :=
  match r with
  | .error m => m
  | .ok _ => ""

/-- The `lastErr` value after exhausting an endpoint list on which every
attempt fails: each endpoint leaves its third attempt's error behind. -/
def lastErrStr (oracle : Oracle) : List String → Option String → String
  | [], last => last.getD "All Overpass endpoints failed"
  | ep :: rest, _ => lastErrStr oracle rest (some (errMsg (attemptOk (oracle ep 3))))

/-! ### Run Driver (resilient `Actor.main`, main.js lines 291–352) -/

/-- The `RUN-SUMMARY` value. -/
structure RunSummary where
  found : Nat
  deduped : Nat
  bbox : JBBox
  keywords : List String
  city : String
  hint : String
deriving DecidableEq, Repr

/-- The static hint string of the run summary. -/
def hintStr : String :=
  "Open the Dataset tab to export CSV."

/-- A write to the platform's storage: `Actor.pushData(rows)`,
`Actor.setValue("RUN-SUMMARY", s)`, or `Actor.setValue("ERROR", e)` (the
error record carries the caught error's message; its stack trace is
runtime-generated and not modelled). -/
inductive WEv
  | push (rows : List Row)
  | runSummary (s : RunSummary)
  | errorRec (message : String)
deriving DecidableEq, Repr

/-- What a run leaves behind: the storage writes in order and the network
events.  The try/catch in `Actor.main` makes the driver total: every error
thrown by a stage ends in an `errorRec` write instead of propagating. -/
structure DriverResult where
  writes : List WEv
  net : List Ev
deriving DecidableEq, Repr

/-- The resilient `Actor.main` body.  Query-string templating (`ql`) is pure
string interpolation consumed only by the transport, which the oracle
abstracts; everything else follows the source: normalize, build the regex,
fetch, read `elements` (non-array tolerated as empty), extract, dedupe,
push, write the summary — with any thrown error caught and recorded. -/
def actorMain (input : ActorInput) (oracle : Oracle) : DriverResult :=
  match normalizeInput input with
  | .error msg => { writes := [.errorRec msg], net := [] }
  | .ok cfg =>
    match queryOverpass oracle with
    | (.error msg, tr) => { writes := [.errorRec msg], net := tr }
    | (.ok json, tr) =>
      let elements := json.elements.getD []
      let rows := extractRows cfg.keywords cfg.city elements
      let deduped := dedupeRows rows
      { writes :=
          [.push deduped,
           .runSummary
             { found := rows.length
               deduped := deduped.length
               bbox := cfg.bbox
               keywords := cfg.keywords
               city := cfg.city
               hint := hintStr }]
        net := tr }

/-! ### Sample data used by witnesses -/

/-- A sample record with domain `a.com`. -/
def rowA : Row :=
  { name := "Glow Med Spa", domain := "a.com", city := "San Antonio"
    category := "spa", source_url := "", lat := "", lon := ""
    confidence := "1.00", notes := "" }

/-- A second sample record with the same domain as `rowA`. -/
def rowB : Row :=
  { name := "Other Spa", domain := "a.com", city := "Austin"
    category := "spa", source_url := "", lat := "", lon := ""
    confidence := "1.00", notes := "" }

/-- A sample element whose name matches the keyword `aesthetic`. -/
def elLuxe : Element :=
  { type := some "node", id := 42
    tags := some { name := some "Luxe Aesthetics", shop := some "beauty" } }

/-- The record `elLuxe` extracts to. -/
def rowLuxe : Row :=
  { name := "Luxe Aesthetics", domain := "", city := "San Antonio"
    category := "beauty", source_url := "https://www.openstreetmap.org/node/42"
    lat := "", lon := "", confidence := "0.70", notes := "name_keywords=aesthetic" }

/-- A sample element whose name tag is whitespace-only. -/
def elBlank : Element :=
  { type := some "node", id := 7, tags := some { name := some "   " } }

/-- A sample element of unexpected kind `relation`. -/
def elRelation : Element :=
  { type := some "relation", id := 9
    tags := some { name := some "Glow Med Spa", leisure := some "spa"
                   website := some "http://glow.com" } }

/-- The record `elRelation` extracts to (keyword list `["laser"]`). -/
def rowRel : Row :=
  { name := "Glow Med Spa", domain := "glow.com", city := "San Antonio"
    category := "spa", source_url := "https://www.openstreetmap.org/way/9"
    lat := "", lon := "", confidence := "1.00", notes := "" }

/-- An oracle on which every delivery attempt fails at the transport. -/
def oracleDown : Oracle :=
  fun _ _ => .fail "boom"

/-- An oracle that succeeds on the second attempt at the first endpoint. -/
def oracleFlaky : Oracle :=
  fun ep n =>
    if ep = "https://overpass-api.de/api/interpreter" && n = 2 then
      .resp { ok := true, status := 200
              contentType := some "application/json"
              body := .ok { elements := some [elLuxe, elRelation] } }
    else .fail "HTTP 504"

/-- An input whose nested bbox has an out-of-range latitude. -/
def badInput : ActorInput :=
  { bbox := some { south := .fin 100, west := .fin 0, north := .fin 0, east := .fin 0 } }

/-! ## Theorems -/

/-- Escaping a metacharacter always produces a two-character escape that
`parseLit` reads back; escaping round-trips character by character. -/
theorem parseLit_escChars : ∀ s : List Char, parseLit (escChars s) = some s := by
  intro s
  induction s with
  | nil => rfl
  | cons c cs ih =>
    by_cases h : isReMeta c = true
    · simp [escChars, h, parseLit, parseLitF]
      exact ih
    · have hc : ¬(c = '\\') := by
        intro e
        subst e
        simp [isReMeta] at h
      simp [escChars, h, parseLit, parseLitF, hc]
      exact ih

/-- A list made of nonempty strings is empty iff its `map` image is. -/
theorem map_escapeRe_eq_nil (l : List String) :
    l.map escapeRe = [] ↔ l = [] := by
  cases l <;> simp

/-- Claim C1: `buildRegex` trims each keyword, drops the empties,
backslash-escapes the regex metacharacters in each survivor, joins them with
a bar and wraps the result as `(?i)(...)`; the built-in default pattern is
substituted when nothing survives, and the escaping round-trips — each
escaped keyword, read as a regex literal sequence, denotes exactly the
original keyword text. -/
theorem buildRegex_escapes_and_roundtrips (kws : List String) :
    buildRegex kws =
      "(?i)(" ++
        (if (kws.map sTrim).filter (fun k => k ≠ "") = [] then defaultPattern
         else sIntercalate "|" (((kws.map sTrim).filter (fun k => k ≠ "")).map escapeRe))
        ++ ")" ∧
    ∀ k ∈ (kws.map sTrim).filter (fun k => k ≠ ""),
      parseLit (escapeRe k).data = some k.data := by
  constructor
  · simp only [buildRegex, map_escapeRe_eq_nil]
  · intro k _
    exact parseLit_escChars k.data

/-- Witness for C1 at the keyword list `["a.b"]`. -/
theorem buildRegex_escapes_and_roundtrips_witness :
    parseLit (escapeRe "a.b").data = some "a.b".data :=
  (buildRegex_escapes_and_roundtrips ["a.b"]).2 "a.b" (by decide)

/-- The dedup loop emits a sublist of its input. -/
theorem dedupeRowsAux_sublist (seen : List String) (rows : List Row) :
    (dedupeRowsAux seen rows).Sublist rows := by
  induction rows generalizing seen with
  | nil => simp [dedupeRowsAux]
  | cons r rs ih =>
    by_cases h : dedupKey r ∈ seen
    · simp only [dedupeRowsAux, if_pos h]
      exact (ih seen).cons r
    · simp only [dedupeRowsAux, if_neg h]
      exact (ih (dedupKey r :: seen)).cons₂ r

/-- No emitted record's key was already in the seen set. -/
theorem dedupeRowsAux_key_notin_seen :
    ∀ (seen : List String) (rows : List Row) (r : Row),
      r ∈ dedupeRowsAux seen rows → dedupKey r ∉ seen := by
  intro seen rows
  induction rows generalizing seen with
  | nil => simp [dedupeRowsAux]
  | cons x xs ih =>
    intro r hr
    by_cases h : dedupKey x ∈ seen
    · simp only [dedupeRowsAux, if_pos h] at hr
      exact ih seen r hr
    · simp only [dedupeRowsAux, if_neg h] at hr
      rcases List.mem_cons.mp hr with rfl | hr2
      · exact h
      · intro hmem
        exact ih (dedupKey x :: seen) r hr2 (List.mem_cons_of_mem _ hmem)

/-- The emitted records have pairwise distinct dedup keys. -/
theorem dedupeRowsAux_pairwise (seen : List String) (rows : List Row) :
    (dedupeRowsAux seen rows).Pairwise (fun a b => dedupKey a ≠ dedupKey b) := by
  induction rows generalizing seen with
  | nil => simp [dedupeRowsAux]
  | cons x xs ih =>
    by_cases h : dedupKey x ∈ seen
    · simp only [dedupeRowsAux, if_pos h]
      exact ih seen
    · simp only [dedupeRowsAux, if_neg h]
      refine List.pairwise_cons.mpr ⟨?_, ih (dedupKey x :: seen)⟩
      intro b hb hkey
      exact dedupeRowsAux_key_notin_seen _ _ b hb (hkey ▸ List.mem_cons_self _ _)

/-- Every emitted record is the first input record bearing its key. -/
theorem dedupeRowsAux_first (seen : List String) (rows : List Row) :
    ∀ r ∈ dedupeRowsAux seen rows,
      rows.find? (fun x => dedupKey x == dedupKey r) = some r := by
  induction rows generalizing seen with
  | nil => simp [dedupeRowsAux]
  | cons x xs ih =>
    intro r hr
    by_cases h : dedupKey x ∈ seen
    · simp only [dedupeRowsAux, if_pos h] at hr
      have hne : ¬(dedupKey x = dedupKey r) := by
        intro he
        exact dedupeRowsAux_key_notin_seen seen xs r hr (he ▸ h)
      rw [List.find?_cons_of_neg]
      · exact ih seen r hr
      · simp [hne]
    · simp only [dedupeRowsAux, if_neg h] at hr
      rcases List.mem_cons.mp hr with rfl | hr2
      · rw [List.find?_cons_of_pos]
        simp
      · have hnotin := dedupeRowsAux_key_notin_seen (dedupKey x :: seen) xs r hr2
        have hne : ¬(dedupKey x = dedupKey r) := by
          intro he
          exact hnotin (he ▸ List.mem_cons_self _ _)
        rw [List.find?_cons_of_neg]
        · exact ih (dedupKey x :: seen) r hr2
        · simp [hne]

/-- Two members of a pairwise-distinct-key list with equal keys coincide. -/
theorem pairwise_key_inj {l : List Row}
    (h : l.Pairwise (fun a b => dedupKey a ≠ dedupKey b)) :
    ∀ a ∈ l, ∀ b ∈ l, dedupKey a = dedupKey b → a = b := by
  induction l with
  | nil => simp
  | cons x xs ih =>
    rcases List.pairwise_cons.mp h with ⟨hx, hxs⟩
    intro a ha b hb hk
    rcases List.mem_cons.mp ha with rfl | ha2
    · rcases List.mem_cons.mp hb with rfl | hb2
      · rfl
      · exact absurd hk (hx b hb2)
    · rcases List.mem_cons.mp hb with rfl | hb2
      · exact absurd hk.symm (hx a ha2)
      · exact ih hxs a ha2 b hb2 hk

/-- A nonempty domain is the record's dedup key. -/
theorem dedupKey_of_domain {r : Row} (h : r.domain ≠ "") :
    dedupKey r = r.domain := by
  simp [dedupKey, jsOr, h]

/-- Claim C2: `dedupeRows` emits a subsequence of its input in which no two
retained records share a dedup key (the domain when non-empty, else
lowercased name and city joined by a bar); each retained record is the first
record in input order bearing its key, and in particular of any two records
with equal non-empty domains only the first survives. -/
theorem dedupeRows_first_wins (rows : List Row) :
    (dedupeRows rows).Sublist rows ∧
    (dedupeRows rows).Pairwise (fun a b => dedupKey a ≠ dedupKey b) ∧
    (∀ r ∈ dedupeRows rows,
      rows.find? (fun x => dedupKey x == dedupKey r) = some r) ∧
    (∀ r1 ∈ dedupeRows rows, ∀ r2 ∈ dedupeRows rows,
      r1.domain ≠ "" → r1.domain = r2.domain → r1 = r2) := by
  refine ⟨dedupeRowsAux_sublist [] rows, dedupeRowsAux_pairwise [] rows,
    dedupeRowsAux_first [] rows, ?_⟩
  intro r1 h1 r2 h2 hdom hdeq
  have hd2 : r2.domain ≠ "" := hdeq ▸ hdom
  have hk : dedupKey r1 = dedupKey r2 := by
    rw [dedupKey_of_domain hdom, dedupKey_of_domain hd2, hdeq]
  exact pairwise_key_inj (dedupeRowsAux_pairwise [] rows) r1 h1 r2 h2 hk

/-- Witness for C2: of two records sharing domain `a.com`, lookup of the
retained record's key finds the first. -/
theorem dedupeRows_first_wins_witness :
    [rowA, rowB].find? (fun x => dedupKey x == dedupKey rowA) = some rowA :=
  (dedupeRows_first_wins [rowA, rowB]).2.2.1 rowA (by decide)

/-- The dedup loop is the identity on inputs whose keys are fresh and
pairwise distinct. -/
theorem dedupeRowsAux_id_of_pairwise :
    ∀ (rows : List Row) (seen : List String),
      (∀ r ∈ rows, dedupKey r ∉ seen) →
      rows.Pairwise (fun a b => dedupKey a ≠ dedupKey b) →
      dedupeRowsAux seen rows = rows := by
  intro rows
  induction rows with
  | nil => intro seen _ _; rfl
  | cons x xs ih =>
    intro seen hFresh hPair
    have hx : dedupKey x ∉ seen := hFresh x (List.mem_cons_self _ _)
    rcases List.pairwise_cons.mp hPair with ⟨hHead, hTail⟩
    simp only [dedupeRowsAux, if_neg hx]
    congr 1
    refine ih (dedupKey x :: seen) ?_ hTail
    intro r hr hmem
    rcases List.mem_cons.mp hmem with he | hseen
    · exact hHead r hr he.symm
    · exact hFresh r (List.mem_cons_of_mem _ hr) hseen

/-- Claim C9: deduplication is idempotent — a second pass over the output
of `dedupeRows` removes nothing. -/
theorem dedupeRows_idempotent (rows : List Row) :
    dedupeRows (dedupeRows rows) = dedupeRows rows :=
  dedupeRowsAux_id_of_pairwise (dedupeRows rows) []
    (by intro r _ hmem; exact absurd hmem (List.not_mem_nil _))
    (dedupeRowsAux_pairwise [] rows)

/-! ### Record Extractor -/

/-- Claim C3: an element whose (trimmed) name tag is absent, empty or
whitespace-only yields no record; every extracted record carries the
non-empty trimmed name, so every record in the extractor's output has a
non-empty name. -/
theorem extractRow_drops_unnamed (kws : List String) (city : String) :
    (∀ el, extractRow kws city el = none ↔
      sTrim ((el.tags.getD {}).name.getD "") = "") ∧
    (∀ el row, extractRow kws city el = some row →
      row.name = sTrim ((el.tags.getD {}).name.getD "") ∧ row.name ≠ "") ∧
    (∀ els, ∀ row ∈ extractRows kws city els, row.name ≠ "") := by
  have key : ∀ el row, extractRow kws city el = some row →
      row.name = sTrim ((el.tags.getD {}).name.getD "") ∧ row.name ≠ "" := by
    intro el row h
    by_cases hn : sTrim ((el.tags.getD {}).name.getD "") = ""
    · simp [extractRow, hn] at h
    · simp only [extractRow, if_neg hn] at h
      rcases Option.some.inj h with rfl
      exact ⟨rfl, hn⟩
  refine ⟨?_, key, ?_⟩
  · intro el
    constructor
    · intro h
      by_contra hn
      simp [extractRow, hn] at h
    · intro hn
      simp [extractRow, hn]
  · intro els row hrow
    rcases List.mem_filterMap.mp hrow with ⟨el, _, hel⟩
    exact (key el row hel).2

/-- Witness for C3 at a whitespace-only name. -/
theorem extractRow_drops_unnamed_witness :
    extractRow ["laser"] "San Antonio" elBlank = none :=
  ((extractRow_drops_unnamed ["laser"] "San Antonio").1 elBlank).mpr (by decide)

/-- Appending to the `name_keywords=` prefix never yields the empty string. -/
theorem nameKw_ne_empty (x : String) : ("name_keywords=" ++ x) ≠ "" := by
  intro he
  have h2 : ("name_keywords=" ++ x).data.head? = some 'n' := rfl
  rw [he] at h2
  exact absurd h2 (by decide)

/-- The evidence note is non-empty exactly when some configured non-empty
keyword occurs case-insensitively in the element's name. -/
theorem evidenceNote_ne_iff (tags : Tags) (kws : List String) :
    evidenceNote tags kws ≠ "" ↔
      ∃ k ∈ kws, k ≠ "" ∧
        strIncludes (sLower (tags.name.getD "")) (sLower k) = true := by
  unfold evidenceNote
  by_cases hh :
      ((kws.filter (fun k => k ≠ "")).map sLower).filter
        (fun k => strIncludes (sLower (tags.name.getD "")) k) = []
  · rw [if_pos hh]
    constructor
    · intro he
      exact absurd rfl he
    · rintro ⟨k, hk, hne, hinc⟩
      exfalso
      have hmem : sLower k ∈
          ((kws.filter (fun x => x ≠ "")).map sLower).filter
            (fun k => strIncludes (sLower (tags.name.getD "")) k) := by
        refine List.mem_filter.mpr ⟨?_, hinc⟩
        exact List.mem_map_of_mem _ (List.mem_filter.mpr ⟨hk, by simpa using hne⟩)
      rw [hh] at hmem
      exact absurd hmem (List.not_mem_nil _)
  · rw [if_neg hh]
    constructor
    · intro _
      rcases List.exists_cons_of_ne_nil hh with ⟨y, ys, hys⟩
      have hy : y ∈
          ((kws.filter (fun x => x ≠ "")).map sLower).filter
            (fun k => strIncludes (sLower (tags.name.getD "")) k) := by
        rw [hys]
        exact List.mem_cons_self _ _
      rcases List.mem_filter.mp hy with ⟨hy1, hy2⟩
      rcases List.mem_map.mp hy1 with ⟨k, hk1, rfl⟩
      rcases List.mem_filter.mp hk1 with ⟨hkmem, hkne⟩
      exact ⟨k, hkmem, by simpa using hkne, hy2⟩
    · intro _
      exact nameKw_ne_empty _

/-- Claim C7: the confidence of an extracted record is `1.00` exactly when
its domain is non-empty; otherwise `0.70` exactly when the notes field is
non-empty, which happens exactly when some configured keyword occurs
case-insensitively in the element's name; otherwise `0.50`. -/
theorem extract_confidence_levels (kws : List String) (city : String)
    (el : Element) (row : Row) (h : extractRow kws city el = some row) :
    (row.confidence = "1.00" ↔ row.domain ≠ "") ∧
    (row.domain = "" → (row.confidence = "0.70" ↔ row.notes ≠ "")) ∧
    (row.domain = "" → row.notes = "" → row.confidence = "0.50") ∧
    (row.notes ≠ "" ↔ ∃ k ∈ kws, k ≠ "" ∧
      strIncludes (sLower ((el.tags.getD {}).name.getD "")) (sLower k) = true) := by
  by_cases hn : sTrim ((el.tags.getD {}).name.getD "") = ""
  · simp [extractRow, hn] at h
  · simp only [extractRow, if_neg hn] at h
    rcases Option.some.inj h with rfl
    refine ⟨?_, ?_, ?_, evidenceNote_ne_iff _ kws⟩
    · by_cases hd :
          rootDomain (jsOr ((el.tags.getD {}).website.getD "")
            ((el.tags.getD {}).contactWebsite.getD "")) = ""
      · by_cases hnote : evidenceNote (el.tags.getD {}) kws = ""
        · simp [hd, hnote, show ratFixed 2 (mkRat 1 2) = "0.50" from by decide,
            show ("0.50" : String) ≠ "1.00" from by decide]
        · simp [hd, hnote, show ratFixed 2 (mkRat 7 10) = "0.70" from by decide,
            show ("0.70" : String) ≠ "1.00" from by decide]
      · simp [hd, show ratFixed 2 1 = "1.00" from by decide]
    · intro hd
      simp only [] at hd
      by_cases hnote : evidenceNote (el.tags.getD {}) kws = ""
      · simp [hd, hnote, show ratFixed 2 (mkRat 1 2) = "0.50" from by decide,
          show ("0.50" : String) ≠ "0.70" from by decide]
      · simp [hd, hnote, show ratFixed 2 (mkRat 7 10) = "0.70" from by decide]
    · intro hd hnote
      simp only [] at hd hnote
      simp [hd, hnote, show ratFixed 2 (mkRat 1 2) = "0.50" from by decide]

/-- Witness for C7 at the `Luxe Aesthetics` example. -/
theorem extract_confidence_levels_witness :
    rowLuxe.confidence = "0.70" ↔ rowLuxe.notes ≠ "" :=
  (extract_confidence_levels ["aesthetic"] "San Antonio" elLuxe rowLuxe
    (by decide)).2.1 (by decide)

/-- Claim C10: the source URL uses element kind `node` only for elements
whose type is exactly `node`; every other type value — `relation`, any
unexpected string, or an absent type — is silently rendered as a way URL. -/
theorem sourceUrl_node_or_way (kws : List String) (city : String)
    (el : Element) (row : Row) (h : extractRow kws city el = some row) :
    (el.type = some "node" →
      row.source_url = "https://www.openstreetmap.org/node/" ++ toString el.id) ∧
    (el.type ≠ some "node" →
      row.source_url = "https://www.openstreetmap.org/way/" ++ toString el.id) := by
  by_cases hn : sTrim ((el.tags.getD {}).name.getD "") = ""
  · simp [extractRow, hn] at h
  · simp only [extractRow, if_neg hn] at h
    rcases Option.some.inj h with rfl
    constructor
    · intro ht
      simp only [ht]
      simp [show ((("https://www.openstreetmap.org/" ++ "node" : String) ++ "/") : String)
        = "https://www.openstreetmap.org/node/" from by decide]
    · intro ht
      simp only []
      simp [ht, show ((("https://www.openstreetmap.org/" ++ "way" : String) ++ "/") : String)
        = "https://www.openstreetmap.org/way/" from by decide]

/-- Witness for C10: a `relation` element is rendered as a way URL. -/
theorem sourceUrl_node_or_way_witness :
    rowRel.source_url = "https://www.openstreetmap.org/way/" ++ toString elRelation.id :=
  (sourceUrl_node_or_way ["laser"] "San Antonio" elRelation rowRel
    (by decide)).2 (by decide)

/-! ### Input Normalizer -/

/-- Claim C4: normalization takes the nested bbox when present, else builds
one from the four flat fields with the documented defaults substituted for
absent or non-numeric values, and fails (before any network event) exactly
when a resolved coordinate falls outside the latitude range for south/north
or the longitude range for west/east. -/
theorem normalizeInput_bbox_validation (input : ActorInput) (oracle : Oracle) :
    ((∃ e, normalizeInput input = .error e) ↔
      ¬(inRangeJ (-90) 90 (resolvedBBox input).south = true ∧
        inRangeJ (-90) 90 (resolvedBBox input).north = true ∧
        inRangeJ (-180) 180 (resolvedBBox input).west = true ∧
        inRangeJ (-180) 180 (resolvedBBox input).east = true)) ∧
    (∀ cfg, normalizeInput input = .ok cfg →
      cfg.bbox = resolvedBBox input ∧ cfg.keywords = resolveKeywords input ∧
        cfg.city = resolveCity input) ∧
    (∀ b, input.bbox = some b → resolvedBBox input = b) ∧
    (input.bbox = none →
      resolvedBBox input =
        { south := .fin (toNum input.bbox_south (mkRat 2910 100))
          west := .fin (toNum input.bbox_west (mkRat (-9885) 100))
          north := .fin (toNum input.bbox_north (mkRat 2975 100))
          east := .fin (toNum input.bbox_east (mkRat (-9810) 100)) }) ∧
    (∀ d : Rat, toNum .absent d = d ∧ toNum .nonFinite d = d) ∧
    ((∃ e, normalizeInput input = .error e) → (actorMain input oracle).net = []) := by
  have hOk : bboxOk (resolvedBBox input) = true ↔
      (inRangeJ (-90) 90 (resolvedBBox input).south = true ∧
        inRangeJ (-90) 90 (resolvedBBox input).north = true ∧
        inRangeJ (-180) 180 (resolvedBBox input).west = true ∧
        inRangeJ (-180) 180 (resolvedBBox input).east = true) := by
    simp [bboxOk, Bool.and_eq_true, and_assoc]
  by_cases hb : bboxOk (resolvedBBox input) = true
  · refine ⟨?_, ?_, ?_, ?_, ?_, ?_⟩
    · simp only [normalizeInput, if_pos hb]
      constructor
      · rintro ⟨e, he⟩
        exact absurd he (by simp)
      · intro hc
        exact absurd (hOk.mp hb) hc
    · intro cfg hcfg
      simp only [normalizeInput, if_pos hb] at hcfg
      rcases Except.ok.inj hcfg with rfl
      exact ⟨rfl, rfl, rfl⟩
    · intro b hbb
      simp [resolvedBBox, hbb]
    · intro hbb
      simp [resolvedBBox, hbb]
    · intro d
      exact ⟨rfl, rfl⟩
    · rintro ⟨e, he⟩
      simp only [normalizeInput, if_pos hb] at he
      exact absurd he (by simp)
  · refine ⟨?_, ?_, ?_, ?_, ?_, ?_⟩
    · simp only [normalizeInput, if_neg hb]
      constructor
      · intro _
        intro hc
        exact hb (hOk.mpr hc)
      · intro _
        exact ⟨"Invalid bbox coordinates", rfl⟩
    · intro cfg hcfg
      simp only [normalizeInput, if_neg hb] at hcfg
      exact absurd hcfg (by simp)
    · intro b hbb
      simp [resolvedBBox, hbb]
    · intro hbb
      simp [resolvedBBox, hbb]
    · intro d
      exact ⟨rfl, rfl⟩
    · intro _
      simp only [actorMain, normalizeInput, if_neg hb]

/-- Witness for C4: a nested bbox with latitude 100 makes the run fail
before any network attempt. -/
theorem normalizeInput_bbox_validation_witness :
    (actorMain badInput oracleDown).net = [] :=
  (normalizeInput_bbox_validation badInput oracleDown).2.2.2.2.2
    ⟨"Invalid bbox coordinates", rfl⟩

/-! ### rootDomain (claim C8, corrected) -/

/-- Counterexample to C8 as stated: `httpfoo` carries no scheme, so the
spec-modelled `rootDomain` (prefix `http://` when no scheme is given) parses
`http://httpfoo` and returns `httpfoo`, but the source checks
`url.startsWith("http")`, does not prefix, fails to parse and returns `""`. -/
theorem rootDomain_scheme_counterexample :
    rootDomain "httpfoo" = "" ∧ rootDomainSpecModel "httpfoo" = "httpfoo" :=
  ⟨by decide, by decide⟩

/-- Claim C8 (amended): `rootDomain` parses its argument as a URL after
prefixing `http://` when the argument does not start with the literal
`http` (not: when no scheme is given); on success it returns the lowercased
hostname with one leading `www.` stripped, else the empty string; the
quoted examples evaluate as stated. -/
theorem rootDomain_amended :
    rootDomain "" = "" ∧
    rootDomain "https://www.example.com/page" = "example.com" ∧
    rootDomain "not a url" = "" ∧
    (∀ url h, url ≠ "" →
      urlHostname (if sStartsWith url "http" then url else "http://" ++ url) = some h →
      rootDomain url =
        (if sStartsWith (sLower h) "www." then sDrop (sLower h) 4 else sLower h)) ∧
    (∀ url, url ≠ "" →
      urlHostname (if sStartsWith url "http" then url else "http://" ++ url) = none →
      rootDomain url = "") := by
  refine ⟨rfl, by decide, by decide, ?_, ?_⟩
  · intro url h hne hh
    simp [rootDomain, hne, hh]
  · intro url hne hh
    simp [rootDomain, hne, hh]

/-- Witness for the amended C8 on a mixed-case `www.` host. -/
theorem rootDomain_amended_witness :
    rootDomain "http://www.Foo.org/x" =
      (if sStartsWith (sLower "www.foo.org") "www." then sDrop (sLower "www.foo.org") 4
       else sLower "www.foo.org") :=
  rootDomain_amended.2.2.2.1 "http://www.Foo.org/x" "www.foo.org" (by decide) (by decide)

/-! ### Endpoint Client retry behaviour -/

/-- One endpoint, success on the first attempt. -/
theorem tryEp_succ1 (oracle : Oracle) (ep : String) (last : Option String)
    (v : OverpassResp) (h1 : attemptOk (oracle ep 1) = .ok v) :
    tryEp oracle ep 3 1 last = (some v, last, [Ev.att ep 1]) := by
  simp [tryEp, h1]

/-- One endpoint, success on the second attempt. -/
theorem tryEp_succ2 (oracle : Oracle) (ep : String) (last : Option String)
    (e1 : String) (v : OverpassResp)
    (h1 : attemptOk (oracle ep 1) = .error e1)
    (h2 : attemptOk (oracle ep 2) = .ok v) :
    tryEp oracle ep 3 1 last =
      (some v, some e1, [Ev.att ep 1, Ev.slp 700, Ev.att ep 2]) := by
  simp [tryEp, h1, h2]

/-- One endpoint, success on the third attempt. -/
theorem tryEp_succ3 (oracle : Oracle) (ep : String) (last : Option String)
    (e1 e2 : String) (v : OverpassResp)
    (h1 : attemptOk (oracle ep 1) = .error e1)
    (h2 : attemptOk (oracle ep 2) = .error e2)
    (h3 : attemptOk (oracle ep 3) = .ok v) :
    tryEp oracle ep 3 1 last =
      (some v, some e2,
       [Ev.att ep 1, Ev.slp 700, Ev.att ep 2, Ev.slp 1400, Ev.att ep 3]) := by
  simp [tryEp, h1, h2, h3]

/-- One endpoint, all three attempts fail. -/
theorem tryEp_fail (oracle : Oracle) (ep : String) (last : Option String)
    (e1 e2 e3 : String)
    (h1 : attemptOk (oracle ep 1) = .error e1)
    (h2 : attemptOk (oracle ep 2) = .error e2)
    (h3 : attemptOk (oracle ep 3) = .error e3) :
    tryEp oracle ep 3 1 last =
      (none, some e3,
       [Ev.att ep 1, Ev.slp 700, Ev.att ep 2, Ev.slp 1400, Ev.att ep 3,
        Ev.slp 2100]) := by
  simp [tryEp, h1, h2, h3]

/-- Joint characterisation of the nested retry loop over any endpoint list:
the result is the first success of the flattened attempt schedule (or the
threaded last error when every attempt fails), the attempts made form a
prefix of the schedule, and every sleep follows a failed attempt for
`700 × attemptNumber` milliseconds. -/
theorem queryGo_spec (oracle : Oracle) :
    ∀ (eps : List String) (last : Option String),
      (∀ v, firstSuccess oracle (flatAttempts eps) = some v →
        (queryGo oracle eps last).1 = .ok v) ∧
      (firstSuccess oracle (flatAttempts eps) = none →
        (queryGo oracle eps last).1 = .error (lastErrStr oracle eps last)) ∧
      attsOf (queryGo oracle eps last).2 <+: flatAttempts eps ∧
      slpOk (queryGo oracle eps last).2 = true := by
  intro eps
  induction eps with
  | nil =>
    intro last
    refine ⟨?_, ?_, ?_, ?_⟩
    · intro v hv
      simp [firstSuccess, flatAttempts] at hv
    · intro _
      rfl
    · simp [queryGo, attsOf]
    · rfl
  | cons ep rest ih =>
    intro last
    have hflat : flatAttempts (ep :: rest) =
        (ep, 1) :: (ep, 2) :: (ep, 3) :: flatAttempts rest := rfl
    rcases h1 : attemptOk (oracle ep 1) with e1 | v1
    case ok =>
      have hq : queryGo oracle (ep :: rest) last = (.ok v1, [Ev.att ep 1]) := by
        simp [queryGo, tryEp_succ1 oracle ep last v1 h1]
      have hfs : firstSuccess oracle (flatAttempts (ep :: rest)) = some v1 := by
        simp [hflat, firstSuccess, List.findSome?_cons, h1, Except.toOption]
      refine ⟨?_, ?_, ?_, ?_⟩
      · intro v hv
        rw [hfs] at hv
        rcases Option.some.inj hv with rfl
        simp [hq]
      · intro hnone
        rw [hfs] at hnone
        exact absurd hnone (by simp)
      · rw [hq, hflat]
        exact ⟨(ep, 2) :: (ep, 3) :: flatAttempts rest, rfl⟩
      · rw [hq]
        rfl
    case error =>
      rcases h2 : attemptOk (oracle ep 2) with e2 | v2
      case ok =>
        have hq : queryGo oracle (ep :: rest) last =
            (.ok v2, [Ev.att ep 1, Ev.slp 700, Ev.att ep 2]) := by
          simp [queryGo, tryEp_succ2 oracle ep last e1 v2 h1 h2]
        have hfs : firstSuccess oracle (flatAttempts (ep :: rest)) = some v2 := by
          simp [hflat, firstSuccess, List.findSome?_cons, h1, h2, Except.toOption]
        refine ⟨?_, ?_, ?_, ?_⟩
        · intro v hv
          rw [hfs] at hv
          rcases Option.some.inj hv with rfl
          simp [hq]
        · intro hnone
          rw [hfs] at hnone
          exact absurd hnone (by simp)
        · rw [hq, hflat]
          exact ⟨(ep, 3) :: flatAttempts rest, rfl⟩
        · rw [hq]
          rfl
      case error =>
        rcases h3 : attemptOk (oracle ep 3) with e3 | v3
        case ok =>
          have hq : queryGo oracle (ep :: rest) last =
              (.ok v3,
               [Ev.att ep 1, Ev.slp 700, Ev.att ep 2, Ev.slp 1400, Ev.att ep 3]) := by
            simp [queryGo, tryEp_succ3 oracle ep last e1 e2 v3 h1 h2 h3]
          have hfs : firstSuccess oracle (flatAttempts (ep :: rest)) = some v3 := by
            simp [hflat, firstSuccess, List.findSome?_cons, h1, h2, h3, Except.toOption]
          refine ⟨?_, ?_, ?_, ?_⟩
          · intro v hv
            rw [hfs] at hv
            rcases Option.some.inj hv with rfl
            simp [hq]
          · intro hnone
            rw [hfs] at hnone
            exact absurd hnone (by simp)
          · rw [hq, hflat]
            exact ⟨flatAttempts rest, rfl⟩
          · rw [hq]
            rfl
        case error =>
          rcases ih (some e3) with ⟨ih1, ih2, ih3, ih4⟩
          have hq : queryGo oracle (ep :: rest) last =
              ((queryGo oracle rest (some e3)).1,
               [Ev.att ep 1, Ev.slp 700, Ev.att ep 2, Ev.slp 1400, Ev.att ep 3,
                Ev.slp 2100] ++ (queryGo oracle rest (some e3)).2) := by
            simp [queryGo, tryEp_fail oracle ep last e1 e2 e3 h1 h2 h3]
          have hfs : firstSuccess oracle (flatAttempts (ep :: rest)) =
              firstSuccess oracle (flatAttempts rest) := by
            simp [hflat, firstSuccess, List.findSome?_cons, h1, h2, h3, Except.toOption]
          have hlast : lastErrStr oracle (ep :: rest) last =
              lastErrStr oracle rest (some e3) := by
            simp [lastErrStr, errMsg, h3]
          refine ⟨?_, ?_, ?_, ?_⟩
          · intro v hv
            rw [hfs] at hv
            rw [hq]
            exact ih1 v hv
          · intro hnone
            rw [hfs] at hnone
            rw [hq, hlast]
            exact ih2 hnone
          · rw [hq, hflat]
            rcases ih3 with ⟨t, ht⟩
            refine ⟨t, ?_⟩
            simp [attsOf] at ht ⊢
            simp [ht]
          · rw [hq]
            simp only [List.cons_append, List.nil_append, slpOk]
            simpa using ih4

/-- Claim C5: the endpoints are tried strictly in list order with at most 3
attempts each and inter-attempt sleeps of `700 × attemptNumber`; an attempt
succeeds only through `attemptOk` (transport completed, success status,
JSON content type, body parsed), the first success is returned, and when
every attempt fails the error of the very last attempt (third attempt at
the last endpoint) is thrown. -/
theorem queryOverpass_retry_spec (oracle : Oracle) :
    (∀ v, firstSuccess oracle canonicalAttempts = some v →
      (queryOverpass oracle).1 = .ok v) ∧
    (firstSuccess oracle canonicalAttempts = none →
      ∃ m, attemptOk
          (oracle "https://overpass.openstreetmap.ru/api/interpreter" 3) = .error m ∧
        (queryOverpass oracle).1 = .error m) ∧
    attsOf (queryOverpass oracle).2 <+: canonicalAttempts ∧
    slpOk (queryOverpass oracle).2 = true := by
  rcases queryGo_spec oracle OVERPASS_ENDPOINTS none with ⟨h1, h2, h3, h4⟩
  refine ⟨h1, ?_, h3, h4⟩
  intro hnone
  have hopt : (attemptOk
      (oracle "https://overpass.openstreetmap.ru/api/interpreter" 3)).toOption = none := by
    have hmem : ("https://overpass.openstreetmap.ru/api/interpreter", 3) ∈
        canonicalAttempts := by decide
    exact List.findSome?_eq_none_iff.mp hnone _ hmem
  rcases hE : attemptOk (oracle "https://overpass.openstreetmap.ru/api/interpreter" 3)
    with m | v
  · refine ⟨m, rfl, ?_⟩
    have hres := h2 hnone
    show (queryGo oracle OVERPASS_ENDPOINTS none).1 = Except.error m
    rw [hres]
    simp [OVERPASS_ENDPOINTS, lastErrStr, errMsg, hE]
  · rw [hE] at hopt
    exact absurd hopt (by simp [Except.toOption])

/-- Witness for C5: with every attempt failing, the failure of the third
attempt at the last endpoint is the error thrown. -/
theorem queryOverpass_retry_spec_witness :
    ∃ m, attemptOk
        (oracleDown "https://overpass.openstreetmap.ru/api/interpreter" 3) = .error m ∧
      (queryOverpass oracleDown).1 = .error m :=
  (queryOverpass_retry_spec oracleDown).2.1 rfl

/-! ### Run Driver error boundary -/

/-- Claim C6: every error thrown by a stage (invalid configuration or
endpoint exhaustion) is caught by the driver, recorded as the only storage
write — an error record carrying the message, with no dataset push — and
the driver returns normally; on success the deduplicated dataset is pushed
and then a run summary whose `found` field is the pre-dedup count and whose
`deduped` field is the post-dedup count. -/
theorem actorMain_error_boundary (input : ActorInput) (oracle : Oracle) :
    (∀ m, normalizeInput input = .error m →
      (actorMain input oracle).writes = [.errorRec m] ∧
        (actorMain input oracle).net = []) ∧
    (∀ cfg, normalizeInput input = .ok cfg →
      (∀ m, (queryOverpass oracle).1 = .error m →
        (actorMain input oracle).writes = [.errorRec m]) ∧
      (∀ js, (queryOverpass oracle).1 = .ok js →
        (actorMain input oracle).writes =
          [.push (dedupeRows (extractRows cfg.keywords cfg.city (js.elements.getD []))),
           .runSummary
             { found := (extractRows cfg.keywords cfg.city (js.elements.getD [])).length
               deduped :=
                 (dedupeRows (extractRows cfg.keywords cfg.city (js.elements.getD []))).length
               bbox := cfg.bbox
               keywords := cfg.keywords
               city := cfg.city
               hint := hintStr }])) := by
  constructor
  · intro m hm
    constructor <;> simp [actorMain, hm]
  · intro cfg hcfg
    rcases hq : queryOverpass oracle with ⟨res, tr⟩
    rcases res with msg | js0
    · constructor
      · intro m hm
        rcases Except.error.inj hm with rfl
        simp [actorMain, hcfg, hq]
      · intro js hjs
        exact absurd hjs (by simp)
    · constructor
      · intro m hm
        exact absurd hm (by simp)
      · intro js hjs
        rcases Except.ok.inj hjs with rfl
        simp [actorMain, hcfg, hq, extractRows]

/-- Witness for C6 on the success path: one flaky endpoint recovers on its
second attempt, the two sample elements are extracted and pushed after
dedup, and the summary counts them before and after. -/
theorem actorMain_error_boundary_witness :
    (actorMain {} oracleFlaky).writes =
      [.push (dedupeRows (extractRows defaultKws "San Antonio" [elLuxe, elRelation])),
       .runSummary
         { found := (extractRows defaultKws "San Antonio" [elLuxe, elRelation]).length
           deduped :=
             (dedupeRows (extractRows defaultKws "San Antonio" [elLuxe, elRelation])).length
           bbox :=
             { south := .fin (mkRat 2910 100), west := .fin (mkRat (-9885) 100)
               north := .fin (mkRat 2975 100), east := .fin (mkRat (-9810) 100) }
           keywords := defaultKws
           city := "San Antonio"
           hint := hintStr }] :=
  ((actorMain_error_boundary {} oracleFlaky).2
      ⟨{ south := .fin (mkRat 2910 100), west := .fin (mkRat (-9885) 100)
         north := .fin (mkRat 2975 100), east := .fin (mkRat (-9810) 100) },
       defaultKws, "San Antonio"⟩ rfl).2
    { elements := some [elLuxe, elRelation] } rfl

end Seeder
